import Mathlib

/-
Shallow embedding of the two source files of the
`traveling_salesman_problem` repository:

  * `src/crossover_methods.py` — three crossover operators on routes
    (`single_point_crossover`, `cycle_crossover`, `partially_mapped_crossover`).
    Routes are Python tuples, embedded here as `List α` with decidable
    equality.  The random cut points (`np.random.randint` resp.
    `np.random.choice(range(size), 2, replace=False)` followed by `sorted`)
    are injected as explicit parameters; for the two-point draw the guard
    `pt1 < pt2 ∧ pt2 < size` characterises exactly the pairs the sampler
    can produce, and the sampler raises (modelled as `none`) if and only if
    no such pair exists, i.e. when `size < 2`.
  * `load_distances.py` — loading of a distance matrix.  The file contents
    are embedded after tokenisation: the header line as a `Nat` and each
    remaining line as its list of parsed integers (a failure of `int(...)`
    raises upstream of everything the claims talk about and therefore never
    produces a normal return).

Python exceptions (KeyError / IndexError / ValueError / a diverging
`while` loop) are embedded as `none`: a `some` result corresponds exactly
to a normal return of the Python function.  Python `dict` literals are
embedded as association lists in insertion order with a
last-binding-wins lookup, matching `dict` overwrite semantics.
-/

namespace TSP

variable {α : Type} [DecidableEq α]

/-- Lookup in an association list with Python `dict` semantics: the most
recently inserted binding for a key wins. -/
def dictGet {κ ν : Type} [DecidableEq κ] (d : List (κ × ν)) (k : κ) : Option ν :=
  d.foldl (fun acc e => if e.1 = k then some e.2 else acc) none

/-! ### single_point_crossover -/

/-- Embeds `single_point_crossover` from `crossover_methods.py`.  The random
cut point (`np.random.randint(1, size)`, drawn only in the `size ≥ 2`
branch) is injected as the parameter `point`. -/
def single_point_crossover (parent1 parent2 : List α) (point : Nat) :
    List α × List α :=
  if parent1.length < 2 then (parent1, parent2)
  else
    (parent1.take point ++
       parent2.filter (fun gene => decide (gene ∉ parent1.take point)),
     parent2.take point ++
       parent1.filter (fun gene => decide (gene ∉ parent2.take point)))

/-! ### cycle_crossover -/

/-- The dict `{value: parent2_idx for parent2_idx, value in enumerate(parent2)}`
built inside `create_cycle`. -/
def p2_index_map (parent2 : List α) : List (α × Nat) :=
  parent2.enum.map (fun p => (p.2, p.1))

/-- The `while current_idx not in indices_in_cycle` loop of `create_cycle`.
`fuel` bounds the number of loop iterations; the Python loop appends a fresh
index on every iteration and every index that can ever appear lies in
`{start} ∪ values (p2_index_map parent2)`, so whenever the Python loop
returns at all it does so within `parent1.length + parent2.length + 2`
iterations (the fuel used below).  Fuel exhaustion, a failing dict lookup
(Python `KeyError`) and an out-of-range `parent1[current_idx]` (Python
`IndexError`) are all embedded as `none`. -/
def cycle_loop (parent1 : List α) (m : List (α × Nat)) :
    Nat → List Nat → Nat → Option (List Nat)
  | 0, indices, cur => if cur ∈ indices then some indices else none
  | fuel + 1, indices, cur =>
    if cur ∈ indices then some indices
    else
      match parent1[cur]? with
      | none => none
      | some v =>
        match dictGet m v with
        | none => none
        | some nxt => cycle_loop parent1 m fuel (indices ++ [cur]) nxt

/-- Embeds `create_cycle` (nested in `cycle_crossover`). -/
def create_cycle (parent1 parent2 : List α) (start : Nat) : Option (List Nat) :=
  cycle_loop parent1 (p2_index_map parent2)
    (parent1.length + parent2.length + 2) [] start

/-- The `for idx in cycle_indices` body: `child1[idx] = parent1[idx]` and
`child2[idx] = parent2[idx]`; an out-of-range read is `none`. -/
def apply_cycle (parent1 parent2 : List α) :
    List α → List α → List Nat → Option (List α × List α)
  | c1, c2, [] => some (c1, c2)
  | c1, c2, idx :: rest =>
    match parent1[idx]?, parent2[idx]? with
    | some v1, some v2 =>
        apply_cycle parent1 parent2 (c1.set idx v1) (c2.set idx v2) rest
    | _, _ => none

/-- The first `for i in range(size)` loop of `cycle_crossover`. -/
def cycle_first_loop (parent1 parent2 : List α) :
    List α → List α → List Nat → Option (List α × List α)
  | c1, c2, [] => some (c1, c2)
  | c1, c2, i :: rest =>
    if c1[i]? = parent1[i]? then
      match create_cycle parent1 parent2 i with
      | none => none
      | some cyc =>
        match apply_cycle parent1 parent2 c1 c2 cyc with
        | none => none
        | some (c1', c2') => cycle_first_loop parent1 parent2 c1' c2' rest
    else cycle_first_loop parent1 parent2 c1 c2 rest

/-- The second `for i in range(size)` loop of `cycle_crossover`:
`if child1[i] != parent1[i]: child1[i] = parent2[i]` and symmetrically for
`child2`. -/
def cycle_second_loop (parent1 parent2 : List α) :
    List α → List α → List Nat → Option (List α × List α)
  | c1, c2, [] => some (c1, c2)
  | c1, c2, i :: rest =>
    match (if c1[i]? = parent1[i]? then some c1
           else (parent2[i]?).map (fun v => c1.set i v)) with
    | none => none
    | some c1' =>
      match (if c2[i]? = parent2[i]? then some c2
             else (parent1[i]?).map (fun v => c2.set i v)) with
      | none => none
      | some c2' => cycle_second_loop parent1 parent2 c1' c2' rest

/-- Embeds `cycle_crossover` from `crossover_methods.py`.  `child1` and
`child2` start as copies of the parents (`list(parent1)` / `list(parent2)`). -/
def cycle_crossover (parent1 parent2 : List α) : Option (List α × List α) :=
  match cycle_first_loop parent1 parent2 parent1 parent2
      (List.range parent1.length) with
  | none => none
  | some (c1, c2) =>
    cycle_second_loop parent1 parent2 c1 c2 (List.range parent1.length)

/-! ### partially_mapped_crossover -/

/-- The dict comprehension `{pa[i]: pb[i] for i in range(point1, point2)}`,
over an explicit list of indices; an out-of-range read is `none`. -/
def mapping_pairs (pa pb : List α) : List Nat → Option (List (α × α))
  | [] => some []
  | i :: is =>
    match pa[i]?, pb[i]? with
    | some a, some b =>
      match mapping_pairs pa pb is with
      | none => none
      | some rest => some ((a, b) :: rest)
    | _, _ => none

/-- The slice swap `child[i] = other[i] for i in range(point1, point2)`. -/
def swap_slice (other : List α) : List α → List Nat → Option (List α)
  | c, [] => some c
  | c, i :: is =>
    match other[i]? with
    | none => none
    | some v => swap_slice other (c.set i v) is

/-- The `while child[i] in mapping: child[i] = mapping[child[i]]` chain of
`resolve_gene_mapping`.  `fuel` bounds the number of substitutions; a chain
the Python loop finishes performs at most one substitution per distinct key
of the mapping, so fuel `m.length` is exact: `some` if and only if the
Python loop terminates, `none` exactly when it would run forever. -/
def chase (m : List (α × α)) : Nat → α → Option α
  | 0, v =>
    match dictGet m v with
    | none => some v
    | some _ => none
  | fuel + 1, v =>
    match dictGet m v with
    | none => some v
    | some w => chase m fuel w

/-- Embeds `resolve_gene_mapping`, iterating over an explicit list of
positions (`range(size)` at the call site); positions inside
`[point1, point2)` are skipped by the `continue`. -/
def resolve_positions (point1 point2 : Nat) (m : List (α × α)) :
    List α → List Nat → Option (List α)
  | child, [] => some child
  | child, i :: is =>
    if point1 ≤ i ∧ i < point2 then resolve_positions point1 point2 m child is
    else
      match child[i]? with
      | none => none
      | some v =>
        match chase m m.length v with
        | none => none
        | some w => resolve_positions point1 point2 m (child.set i w) is

/-- Embeds `partially_mapped_crossover` from `crossover_methods.py`.  The
sorted pair drawn by `np.random.choice(range(size), 2, replace=False)` is
injected as `(point1, point2)`; the guard below holds exactly for the pairs
that call can produce, and when `size < 2` the call raises for every draw,
embedded as `none`. -/
def partially_mapped_crossover (parent1 parent2 : List α)
    (point1 point2 : Nat) : Option (List α × List α) :=
  if point1 < point2 ∧ point2 < parent1.length then
    match mapping_pairs parent1 parent2 (List.range' point1 (point2 - point1)) with
    | none => none
    | some mapping1 =>
      match mapping_pairs parent2 parent1 (List.range' point1 (point2 - point1)) with
      | none => none
      | some mapping2 =>
        match swap_slice parent2 parent1 (List.range' point1 (point2 - point1)) with
        | none => none
        | some c1 =>
          match swap_slice parent1 parent2 (List.range' point1 (point2 - point1)) with
          | none => none
          | some c2 =>
            match resolve_positions point1 point2 mapping1 c1
                (List.range parent1.length) with
            | none => none
            | some c1' =>
              match resolve_positions point1 point2 mapping2 c2
                  (List.range parent1.length) with
              | none => none
              | some c2' => some (c1', c2')
  else none

/-! ### load_distances -/

/-- The city name `f"city_{i+1}"` from `load_distances.py`. -/
def cityName (i : Nat) : String := "city_" ++ toString (i + 1)

/-- The list comprehension `[f"city_{i+1}" for i in range(num_cities)]`. -/
def city_names (num_cities : Nat) : List String :=
  (List.range num_cities).map cityName

/-- The inner `for j, value in enumerate(values)` loop of `parse_matrix`,
with the running column index `j` made explicit; `city_names` reads out of
range are Python `IndexError`s, embedded as `none`. -/
def parse_row (i : Nat) (names : List String) :
    Nat → List Int → Option (List ((String × String) × Int))
  | _, [] => some []
  | j, v :: vs =>
    if i ≠ j then
      match names[i]?, names[j]? with
      | some a, some b =>
        match parse_row i names (j + 1) vs with
        | none => none
        | some rest => some (((a, b), v) :: rest)
      | _, _ => none
    else parse_row i names (j + 1) vs

/-- The outer `for i, line in enumerate(lines[1 : num_cities + 1])` loop of
`parse_matrix`, with the running row index `i` made explicit.  A row of the
wrong width raises `ValueError`, embedded as `none`. -/
def parse_rows (num_cities : Nat) (names : List String) :
    Nat → List (List Int) → Option (List ((String × String) × Int))
  | _, [] => some []
  | i, row :: rest =>
    if row.length ≠ num_cities then none
    else
      match parse_row i names 0 row with
      | none => none
      | some entries =>
        match parse_rows num_cities names (i + 1) rest with
        | none => none
        | some tail => some (entries ++ tail)

/-- Embeds `parse_matrix` from `load_distances.py`.  `rows` are the lines
after the header, each already tokenised into its integers; the function
itself slices `lines[1 : num_cities + 1]`, i.e. `rows.take num_cities`. -/
def parse_matrix (rows : List (List Int)) (num_cities : Nat)
    (names : List String) : Option (List ((String × String) × Int)) :=
  parse_rows num_cities names 0 (rows.take num_cities)

/-- The symmetry / non-negativity validation loop of `load_distances`:
`dist < 0` or `city_distances.get((city2, city1), None) != dist` raises. -/
def distances_check (d : List ((String × String) × Int)) : Bool :=
  d.all (fun e =>
    decide (0 ≤ e.2) && decide (dictGet d (e.1.2, e.1.1) = some e.2))

/-- Embeds `load_distances` from `load_distances.py` after file reading and
integer parsing: `num_cities` is the parsed header line and `rows` the
remaining lines, each tokenised into its integers.  Every raised exception
(too few rows, malformed row, negative or asymmetric entry) is embedded as
`none`; `some` corresponds to the normal return
`(city_distances, city_names)`. -/
def load_distances (num_cities : Nat) (rows : List (List Int)) :
    Option (List ((String × String) × Int) × List String) :=
  if 1 + rows.length < num_cities + 1 then none
  else
    match parse_matrix rows num_cities (city_names num_cities) with
    | none => none
    | some d =>
      if distances_check d then some (d, city_names num_cities) else none

/-! ### Generic lemmas about the dict embedding -/

lemma dictGet_fold {κ ν : Type} [DecidableEq κ] (d : List (κ × ν)) (k : κ)
    (acc : Option ν) :
    d.foldl (fun a e => if e.1 = k then some e.2 else a) acc =
      match dictGet d k with
      | some v => some v
      | none => acc := by
  induction d generalizing acc with
  | nil => simp [dictGet]
  | cons e d ih =>
    have hd : dictGet (e :: d) k =
        match dictGet d k with
        | some v => some v
        | none => if e.1 = k then some e.2 else none := ih _
    show d.foldl _ (if e.1 = k then some e.2 else acc) = _
    rw [ih, hd]
    cases dictGet d k <;> by_cases he : e.1 = k <;> simp [he]

lemma dictGet_cons {κ ν : Type} [DecidableEq κ] (e : κ × ν)
    (d : List (κ × ν)) (k : κ) :
    dictGet (e :: d) k =
      match dictGet d k with
      | some v => some v
      | none => if e.1 = k then some e.2 else none :=
  dictGet_fold d k _

lemma mem_of_dictGet_eq_some {κ ν : Type} [DecidableEq κ]
    {d : List (κ × ν)} {k : κ} {v : ν} (h : dictGet d k = some v) :
    (k, v) ∈ d := by
  induction d with
  | nil => simp [dictGet] at h
  | cons e d ih =>
    rw [dictGet_cons] at h
    cases hd : dictGet d k with
    | some w =>
      rw [hd] at h
      cases h
      exact List.mem_cons_of_mem _ (ih hd)
    | none =>
      rw [hd] at h
      by_cases he : e.1 = k
      · rw [if_pos he] at h
        cases h
        have : e = (k, e.2) := by
          cases e
          simp only at he
          simp [he]
        rw [List.mem_cons]
        exact Or.inl this.symm
      · rw [if_neg he] at h
        cases h

lemma dictGet_isSome_of_mem {κ ν : Type} [DecidableEq κ]
    {d : List (κ × ν)} {k : κ} {v : ν} (h : (k, v) ∈ d) :
    (dictGet d k).isSome := by
  induction d with
  | nil => cases h
  | cons e d ih =>
    rw [dictGet_cons]
    rcases List.mem_cons.mp h with he | hm
    · cases hd : dictGet d k
      · rw [← he]
        simp
      · rfl
    · have hs := ih hm
      cases hd : dictGet d k
      · rw [hd] at hs
        cases hs
      · rfl

lemma dictGet_eq_none_of_forall {κ ν : Type} [DecidableEq κ]
    {d : List (κ × ν)} {k : κ} (h : ∀ e ∈ d, e.1 ≠ k) :
    dictGet d k = none := by
  induction d with
  | nil => rfl
  | cons e d ih =>
    rw [dictGet_cons, ih (fun x hx => h x (List.mem_cons_of_mem _ hx)),
      if_neg (h e (List.mem_cons_self _ _))]

/-! ### Generic list lemmas -/

lemma set_getElem?_self {β : Type} {l : List β} {i : Nat} {v : β}
    (h : l[i]? = some v) : l.set i v = l := by
  apply List.ext_getElem?
  intro n
  rw [List.getElem?_set]
  by_cases hin : i = n
  · subst hin
    obtain ⟨hlt, he⟩ := List.getElem?_eq_some.mp h
    rw [if_pos rfl, if_pos hlt, h]
  · rw [if_neg hin]

lemma length_le_of_nodup_bounded {l : List Nat} {N : Nat} (hnd : l.Nodup)
    (hb : ∀ x ∈ l, x < N) : l.length ≤ N := by
  have h1 : l.toFinset ⊆ Finset.range N := by
    intro x hx
    rw [Finset.mem_range]
    exact hb x (List.mem_toFinset.mp hx)
  have h2 := Finset.card_le_card h1
  rwa [List.toFinset_card_of_nodup hnd, Finset.card_range] at h2

lemma nodup_getElem?_ne {β : Type} {l : List β} (hnd : l.Nodup) {i j : Nat}
    (hij : i ≠ j) {v : β} (hi : l[i]? = some v) (hj : l[j]? = some v) :
    False := by
  obtain ⟨hi1, hi2⟩ := List.getElem?_eq_some.mp hi
  obtain ⟨hj1, hj2⟩ := List.getElem?_eq_some.mp hj
  exact hij ((List.Nodup.getElem_inj_iff hnd).mp (by rw [hi2, hj2]))

/-! ### single_point_crossover lemmas -/

/-- Modelled from the spec's words (section 4.2): a child is the first
parent's elements at positions `[0, point)` followed by the second parent's
elements in their original relative order, excluding any element already
present in that front part. -/
def spec_fill_child (a b : List α) (point : Nat) : List α :=
  a.take point ++ b.filter (fun gene => decide (gene ∉ a.take point))

lemma single_point_eq_spec (p1 p2 : List α) (pt : Nat) (h : 2 ≤ p1.length) :
    single_point_crossover p1 p2 pt =
      (spec_fill_child p1 p2 pt, spec_fill_child p2 p1 pt) := by
  rw [single_point_crossover, if_neg (by omega)]
  rfl

lemma filter_not_mem_take_self {p : List α} (hnd : p.Nodup) (pt : Nat) :
    p.filter (fun g => decide (g ∉ p.take pt)) = p.drop pt := by
  have key : p.filter (fun g => decide (g ∉ p.take pt)) =
      ((p.take pt) ++ (p.drop pt)).filter (fun g => decide (g ∉ p.take pt)) := by
    rw [List.take_append_drop]
  rw [key, List.filter_append]
  have hsplit : ((p.take pt) ++ (p.drop pt)).Nodup := by
    rw [List.take_append_drop]
    exact hnd
  have h1 : (p.take pt).filter (fun g => decide (g ∉ p.take pt)) = [] := by
    rw [List.filter_eq_nil_iff]
    intro a ha
    simp [ha]
  have h2 : (p.drop pt).filter (fun g => decide (g ∉ p.take pt)) = p.drop pt := by
    rw [List.filter_eq_self]
    intro a ha
    have hdisj := (List.nodup_append.mp hsplit).2.2
    simp only [decide_eq_true_eq]
    intro hamem
    exact hdisj hamem ha
  rw [h1, h2, List.nil_append]

lemma single_point_self (p : List α) (hnd : p.Nodup) (pt : Nat) :
    single_point_crossover p p pt = (p, p) := by
  by_cases h : p.length < 2
  · rw [single_point_crossover, if_pos h]
  · rw [single_point_crossover, if_neg h, filter_not_mem_take_self hnd,
      List.take_append_drop]

/-! ### partially_mapped_crossover lemmas -/

lemma chase_of_dictGet_none {m : List (α × α)} {v : α}
    (h : dictGet m v = none) (fuel : Nat) : chase m fuel v = some v := by
  cases fuel <;> simp [chase, h]

lemma mapping_pairs_eq (pa pb : List α) (idxs : List Nat)
    (h : ∀ i ∈ idxs, i < pa.length ∧ i < pb.length) :
    ∃ m, mapping_pairs pa pb idxs = some m ∧
      ∀ e ∈ m, ∃ i ∈ idxs, pa[i]? = some e.1 ∧ pb[i]? = some e.2 := by
  induction idxs with
  | nil => exact ⟨[], rfl, by simp⟩
  | cons i is ih =>
    obtain ⟨hia, hib⟩ := h i (List.mem_cons_self _ _)
    obtain ⟨m, hm, hmem⟩ := ih (fun j hj => h j (List.mem_cons_of_mem _ hj))
    refine ⟨(pa[i], pb[i]) :: m, ?_, ?_⟩
    · simp [mapping_pairs, List.getElem?_eq_getElem hia,
        List.getElem?_eq_getElem hib, hm]
    · intro e he
      rcases List.mem_cons.mp he with he1 | he2
      · subst he1
        exact ⟨i, List.mem_cons_self _ _, List.getElem?_eq_getElem hia,
          List.getElem?_eq_getElem hib⟩
      · obtain ⟨j, hj, hj1, hj2⟩ := hmem e he2
        exact ⟨j, List.mem_cons_of_mem _ hj, hj1, hj2⟩

lemma swap_slice_eq (other : List α) (child : List α) (idxs : List Nat)
    (h : ∀ i ∈ idxs, i < other.length ∧ i < child.length) :
    ∃ c1, swap_slice other child idxs = some c1 ∧
      c1.length = child.length ∧
      ∀ j, c1[j]? = if j ∈ idxs then other[j]? else child[j]? := by
  induction idxs generalizing child with
  | nil =>
    refine ⟨child, rfl, rfl, ?_⟩
    intro j
    simp
  | cons i is ih =>
    obtain ⟨hio, hic⟩ := h i (List.mem_cons_self _ _)
    obtain ⟨c1, hc1, hlen, hpt⟩ := ih (child.set i other[i])
      (fun j hj => ⟨(h j (List.mem_cons_of_mem _ hj)).1,
        by rw [List.length_set]; exact (h j (List.mem_cons_of_mem _ hj)).2⟩)
    refine ⟨c1, ?_, ?_, ?_⟩
    · simp [swap_slice, List.getElem?_eq_getElem hio, hc1]
    · rw [hlen, List.length_set]
    · intro j
      rw [hpt j]
      by_cases hji : j ∈ is
      · rw [if_pos hji, if_pos (List.mem_cons_of_mem _ hji)]
      · rw [if_neg hji]
        by_cases hje : j = i
        · subst hje
          rw [if_pos (List.mem_cons_self _ _),
            List.getElem?_set_self hic, List.getElem?_eq_getElem hio]
        · rw [if_neg (by simp [hje, hji]), List.getElem?_set_ne (Ne.symm hje)]

lemma resolve_positions_id (pt1 pt2 : Nat) (m : List (α × α))
    (child : List α) (idxs : List Nat)
    (h : ∀ i ∈ idxs, ¬(pt1 ≤ i ∧ i < pt2) →
      ∃ v, child[i]? = some v ∧ dictGet m v = none) :
    resolve_positions pt1 pt2 m child idxs = some child := by
  induction idxs with
  | nil => rfl
  | cons i is ih =>
    show resolve_positions pt1 pt2 m child (i :: is) = some child
    by_cases hin : pt1 ≤ i ∧ i < pt2
    · simp only [resolve_positions, if_pos hin]
      exact ih (fun j hj => h j (List.mem_cons_of_mem _ hj))
    · obtain ⟨v, hv, hnone⟩ := h i (List.mem_cons_self _ _) hin
      simp only [resolve_positions, if_neg hin, hv,
        chase_of_dictGet_none hnone, set_getElem?_self hv]
      exact ih (fun j hj => h j (List.mem_cons_of_mem _ hj))

lemma pmx_core (p1 p2 : List α) (pt1 pt2 : Nat) (h1 : p1.Nodup)
    (h2 : p2.Nodup) (hlen : p2.length = p1.length) (hpt : pt1 < pt2)
    (hlt : pt2 < p1.length) :
    ∃ c1 c2, partially_mapped_crossover p1 p2 pt1 pt2 = some (c1, c2) ∧
      c1.length = p1.length ∧ c2.length = p2.length ∧
      (∀ j, c1[j]? = if pt1 ≤ j ∧ j < pt2 then p2[j]? else p1[j]?) ∧
      (∀ j, c2[j]? = if pt1 ≤ j ∧ j < pt2 then p1[j]? else p2[j]?) := by
  have hmem : ∀ i, i ∈ List.range' pt1 (pt2 - pt1) ↔ pt1 ≤ i ∧ i < pt2 := by
    intro i
    rw [List.mem_range'_1, Nat.add_sub_cancel' hpt.le]
  have hbound : ∀ i ∈ List.range' pt1 (pt2 - pt1),
      i < p1.length ∧ i < p2.length := by
    intro i hi
    have := (hmem i).mp hi
    omega
  obtain ⟨m1, hm1, hm1mem⟩ := mapping_pairs_eq p1 p2 _ hbound
  obtain ⟨m2, hm2, hm2mem⟩ := mapping_pairs_eq p2 p1 _
    (fun i hi => ⟨(hbound i hi).2, (hbound i hi).1⟩)
  obtain ⟨c1, hc1, hc1len, hc1pt⟩ := swap_slice_eq p2 p1 _
    (fun i hi => ⟨(hbound i hi).2, (hbound i hi).1⟩)
  obtain ⟨c2, hc2, hc2len, hc2pt⟩ := swap_slice_eq p1 p2 _
    (fun i hi => ⟨(hbound i hi).1, (hbound i hi).2⟩)
  have hc1pt' : ∀ j, c1[j]? = if pt1 ≤ j ∧ j < pt2 then p2[j]? else p1[j]? := by
    intro j
    rw [hc1pt j]
    by_cases hj : pt1 ≤ j ∧ j < pt2
    · rw [if_pos ((hmem j).mpr hj), if_pos hj]
    · rw [if_neg (fun hc => hj ((hmem j).mp hc)), if_neg hj]
  have hc2pt' : ∀ j, c2[j]? = if pt1 ≤ j ∧ j < pt2 then p1[j]? else p2[j]? := by
    intro j
    rw [hc2pt j]
    by_cases hj : pt1 ≤ j ∧ j < pt2
    · rw [if_pos ((hmem j).mpr hj), if_pos hj]
    · rw [if_neg (fun hc => hj ((hmem j).mp hc)), if_neg hj]
  have hres1 : resolve_positions pt1 pt2 m1 c1 (List.range p1.length) =
      some c1 := by
    apply resolve_positions_id
    intro i hi hout
    have hilt : i < p1.length := List.mem_range.mp hi
    have hival : c1[i]? = p1[i]? := by rw [hc1pt' i, if_neg hout]
    refine ⟨p1[i], by rw [hival, List.getElem?_eq_getElem hilt], ?_⟩
    cases hdg : dictGet m1 p1[i] with
    | none => rfl
    | some w =>
      exfalso
      obtain ⟨k, hk, hk1, _⟩ := hm1mem _ (mem_of_dictGet_eq_some hdg)
      have hkin := (hmem k).mp hk
      have hik : i ≠ k := fun he => hout (by rw [he]; exact hkin)
      exact nodup_getElem?_ne h1 hik (List.getElem?_eq_getElem hilt) hk1
  have hres2 : resolve_positions pt1 pt2 m2 c2 (List.range p1.length) =
      some c2 := by
    apply resolve_positions_id
    intro i hi hout
    have hilt : i < p2.length := by
      rw [hlen]
      exact List.mem_range.mp hi
    have hival : c2[i]? = p2[i]? := by rw [hc2pt' i, if_neg hout]
    refine ⟨p2[i], by rw [hival, List.getElem?_eq_getElem hilt], ?_⟩
    cases hdg : dictGet m2 p2[i] with
    | none => rfl
    | some w =>
      exfalso
      obtain ⟨k, hk, hk1, _⟩ := hm2mem _ (mem_of_dictGet_eq_some hdg)
      have hkin := (hmem k).mp hk
      have hik : i ≠ k := fun he => hout (by rw [he]; exact hkin)
      exact nodup_getElem?_ne h2 hik (List.getElem?_eq_getElem hilt) hk1
  refine ⟨c1, c2, ?_, by rw [hc1len], by rw [hc2len], hc1pt', hc2pt'⟩
  rw [partially_mapped_crossover, if_pos ⟨hpt, hlt⟩]
  simp only [hm1, hm2, hc1, hc2, hres1, hres2]

lemma pmx_self (p : List α) (hnd : p.Nodup) (pt1 pt2 : Nat) (hpt : pt1 < pt2)
    (hlt : pt2 < p.length) :
    partially_mapped_crossover p p pt1 pt2 = some (p, p) := by
  obtain ⟨c1, c2, heq, hlen1, hlen2, hpt1, hpt2⟩ :=
    pmx_core p p pt1 pt2 hnd hnd rfl hpt hlt
  have hc1 : c1 = p := by
    apply List.ext_getElem?
    intro n
    rw [hpt1 n]
    split <;> rfl
  have hc2 : c2 = p := by
    apply List.ext_getElem?
    intro n
    rw [hpt2 n]
    split <;> rfl
  rw [heq, hc1, hc2]

/-! ### cycle_crossover lemmas -/

lemma snd_mem_of_mem_enumFrom {l : List α} :
    ∀ {n : Nat} {p : Nat × α}, p ∈ List.enumFrom n l → p.2 ∈ l := by
  induction l with
  | nil => intro n p h; cases h
  | cons a l ih =>
    intro n p h
    rcases List.mem_cons.mp h with h1 | h2
    · rw [h1]
      exact List.mem_cons_self _ _
    · exact List.mem_cons_of_mem _ (ih h2)

lemma dictGet_indexMapFrom (l : List α) (v : α) (hv : v ∈ l) :
    ∀ n : Nat, ∃ j,
      dictGet ((List.enumFrom n l).map (fun p => (p.2, p.1))) v = some j ∧
        n ≤ j ∧ j < n + l.length := by
  induction l with
  | nil => cases hv
  | cons a l ih =>
    intro n
    have hshape : (List.enumFrom n (a :: l)).map (fun p => (p.2, p.1)) =
        (a, n) :: (List.enumFrom (n + 1) l).map (fun p => (p.2, p.1)) := rfl
    rw [hshape, dictGet_cons]
    by_cases hvl : v ∈ l
    · obtain ⟨j, hj, hj1, hj2⟩ := ih hvl (n + 1)
      rw [hj]
      refine ⟨j, rfl, by omega, ?_⟩
      simp only [List.length_cons]
      omega
    · have hva : a = v := by
        rcases List.mem_cons.mp hv with h1 | h2
        · exact h1.symm
        · exact absurd h2 hvl
      have hnone :
          dictGet ((List.enumFrom (n + 1) l).map (fun p => (p.2, p.1))) v =
            none := by
        apply dictGet_eq_none_of_forall
        intro e he
        obtain ⟨p, hp, hpe⟩ := List.mem_map.mp he
        have hmem := snd_mem_of_mem_enumFrom hp
        rw [← hpe]
        exact fun hx => hvl (hx ▸ hmem)
      rw [hnone, if_pos hva]
      refine ⟨n, rfl, le_refl n, ?_⟩
      simp only [List.length_cons]
      omega

lemma dictGet_p2_index_map {p2 : List α} {v : α} (hv : v ∈ p2) :
    ∃ j, dictGet (p2_index_map p2) v = some j ∧ j < p2.length := by
  obtain ⟨j, hj, _, hj2⟩ := dictGet_indexMapFrom p2 v hv 0
  refine ⟨j, ?_, by omega⟩
  rw [p2_index_map, List.enum_eq_enumFrom]
  exact hj

lemma cycle_loop_isSome (p1 : List α) (m : List (α × Nat)) (N : Nat)
    (hlk : ∀ i, i < N →
      ∃ v, p1[i]? = some v ∧ ∃ j, dictGet m v = some j ∧ j < N) :
    ∀ (fuel : Nat) (indices : List Nat) (cur : Nat), indices.Nodup →
      (∀ x ∈ indices, x < N) → cur < N →
      N + 1 - indices.length ≤ fuel →
      ∃ l, cycle_loop p1 m fuel indices cur = some l ∧ ∀ x ∈ l, x < N := by
  intro fuel
  induction fuel with
  | zero =>
    intro indices cur hnd hb hcur hfuel
    exfalso
    have := length_le_of_nodup_bounded hnd hb
    omega
  | succ f ih =>
    intro indices cur hnd hb hcur hfuel
    by_cases hmemb : cur ∈ indices
    · exact ⟨indices, by simp [cycle_loop, hmemb], hb⟩
    · obtain ⟨v, hv, j, hj, hjN⟩ := hlk cur hcur
      obtain ⟨l, hl, hlb⟩ := ih (indices ++ [cur]) j
        (List.nodup_append.mpr ⟨hnd, List.nodup_singleton _,
          fun x hx hxc => hmemb (by
            rw [List.mem_singleton.mp hxc] at hx
            exact hx)⟩)
        (fun x hx => by
          rcases List.mem_append.mp hx with h1 | h2
          · exact hb x h1
          · rw [List.mem_singleton.mp h2]
            exact hcur)
        hjN
        (by
          rw [List.length_append, List.length_singleton]
          omega)
      refine ⟨l, ?_, hlb⟩
      simp only [cycle_loop, if_neg hmemb, hv, hj]
      exact hl

lemma create_cycle_isSome (p1 p2 : List α) (start : Nat)
    (hlen : p2.length = p1.length) (hsub : ∀ x ∈ p1, x ∈ p2)
    (hstart : start < p1.length) :
    ∃ l, create_cycle p1 p2 start = some l ∧ ∀ x ∈ l, x < p1.length := by
  apply cycle_loop_isSome p1 (p2_index_map p2) p1.length ?_ _ [] start
    List.nodup_nil (by simp) hstart (by simp; omega)
  intro i hi
  refine ⟨p1[i], List.getElem?_eq_getElem hi, ?_⟩
  obtain ⟨j, hj, hjlt⟩ := dictGet_p2_index_map (hsub _ (List.getElem_mem hi))
  exact ⟨j, hj, by omega⟩

lemma apply_cycle_id (p1 p2 : List α) (idxs : List Nat)
    (h : ∀ i ∈ idxs, i < p1.length ∧ i < p2.length) :
    apply_cycle p1 p2 p1 p2 idxs = some (p1, p2) := by
  induction idxs with
  | nil => rfl
  | cons i is ih =>
    obtain ⟨h1, h2⟩ := h i (List.mem_cons_self _ _)
    have e1 : p1[i]? = some p1[i] := List.getElem?_eq_getElem h1
    have e2 : p2[i]? = some p2[i] := List.getElem?_eq_getElem h2
    simp only [apply_cycle, e1, e2, set_getElem?_self e1, set_getElem?_self e2]
    exact ih (fun j hj => h j (List.mem_cons_of_mem _ hj))

lemma cycle_first_loop_id (p1 p2 : List α) (hlen : p2.length = p1.length)
    (hsub : ∀ x ∈ p1, x ∈ p2) (idxs : List Nat)
    (h : ∀ i ∈ idxs, i < p1.length) :
    cycle_first_loop p1 p2 p1 p2 idxs = some (p1, p2) := by
  induction idxs with
  | nil => rfl
  | cons i is ih =>
    obtain ⟨cyc, hcyc, hcycb⟩ := create_cycle_isSome p1 p2 i hlen hsub
      (h i (List.mem_cons_self _ _))
    have happ := apply_cycle_id p1 p2 cyc
      (fun x hx => ⟨hcycb x hx, by rw [hlen]; exact hcycb x hx⟩)
    simp only [cycle_first_loop, if_pos rfl, hcyc, happ]
    exact ih (fun j hj => h j (List.mem_cons_of_mem _ hj))

lemma cycle_second_loop_id (p1 p2 : List α) (idxs : List Nat) :
    cycle_second_loop p1 p2 p1 p2 idxs = some (p1, p2) := by
  induction idxs with
  | nil => rfl
  | cons i is ih =>
    simp only [cycle_second_loop, if_pos rfl]
    exact ih

lemma cycle_crossover_eq_parents (p1 p2 : List α)
    (hlen : p2.length = p1.length) (hsub : ∀ x ∈ p1, x ∈ p2) :
    cycle_crossover p1 p2 = some (p1, p2) := by
  have hfirst := cycle_first_loop_id p1 p2 hlen hsub
    (List.range p1.length) (fun i hi => List.mem_range.mp hi)
  simp only [cycle_crossover, hfirst]
  exact cycle_second_loop_id p1 p2 _

/-! ### load_distances lemmas -/

lemma city_names_getElem {num i : Nat} (h : i < num) :
    (city_names num)[i]? = some (cityName i) := by
  rw [city_names, List.getElem?_map, List.getElem?_range h]
  rfl

lemma mem_city_names {num : Nat} {a : String} (h : a ∈ city_names num) :
    ∃ i, i < num ∧ (city_names num)[i]? = some a := by
  obtain ⟨x, hx, hxa⟩ := List.mem_map.mp h
  have hxn := List.mem_range.mp hx
  exact ⟨x, hxn, by rw [city_names_getElem hxn, hxa]⟩

lemma parse_rows_rowlen {num : Nat} {names : List String} :
    ∀ (rows : List (List Int)) (i0 : Nat) (d : List ((String × String) × Int)),
      parse_rows num names i0 rows = some d →
      ∀ row ∈ rows, row.length = num := by
  intro rows
  induction rows with
  | nil =>
    intro i0 d _ row hr
    cases hr
  | cons r rs ih =>
    intro i0 d h row hr
    by_cases hl : r.length ≠ num
    · simp only [parse_rows, if_pos hl] at h
      cases h
    · simp only [parse_rows, if_neg hl] at h
      rcases List.mem_cons.mp hr with h1 | h2
      · rw [h1]
        omega
      · cases hpr : parse_row i0 names 0 r with
        | none => rw [hpr] at h; cases h
        | some entries =>
          rw [hpr] at h
          cases hps : parse_rows num names (i0 + 1) rs with
          | none => rw [hps] at h; cases h
          | some tail => exact ih (i0 + 1) tail hps row h2

lemma parse_row_mem {names : List String} {i : Nat} :
    ∀ (vs : List Int) (j0 : Nat) (l : List ((String × String) × Int)),
      parse_row i names j0 vs = some l →
      ∀ k, k < vs.length → i ≠ j0 + k →
        ∃ a b v, names[i]? = some a ∧ names[j0 + k]? = some b ∧
          ((a, b), v) ∈ l := by
  intro vs
  induction vs with
  | nil =>
    intro j0 l _ k hk
    exact absurd hk (by simp)
  | cons v vs ih =>
    intro j0 l h k hk hne
    by_cases hij : i ≠ j0
    · simp only [parse_row, if_pos hij] at h
      cases ha : names[i]? with
      | none => rw [ha] at h; cases h
      | some a =>
        rw [ha] at h
        cases hb : names[j0]? with
        | none => rw [hb] at h; cases h
        | some b =>
          rw [hb] at h
          cases hrest : parse_row i names (j0 + 1) vs with
          | none => rw [hrest] at h; cases h
          | some rest =>
            rw [hrest] at h
            cases h
            cases k with
            | zero =>
              exact ⟨a, b, v, rfl, by rw [Nat.add_zero]; exact hb,
                List.mem_cons_self _ _⟩
            | succ k' =>
              obtain ⟨a', b', v', ha', hb', hmem⟩ := ih (j0 + 1) rest hrest k'
                (by simp at hk; omega) (by omega)
              exact ⟨a', b', v', by rw [← ha]; exact ha',
                by rw [show j0 + (k' + 1) = j0 + 1 + k' by omega]; exact hb',
                List.mem_cons_of_mem _ hmem⟩
    · simp only [parse_row, if_neg hij] at h
      cases k with
      | zero => exact absurd hne (by omega)
      | succ k' =>
        obtain ⟨a', b', v', ha', hb', hmem⟩ := ih (j0 + 1) l h k'
          (by simp at hk; omega) (by omega)
        exact ⟨a', b', v', ha',
          by rw [show j0 + (k' + 1) = j0 + 1 + k' by omega]; exact hb', hmem⟩

lemma parse_rows_mem {num : Nat} {names : List String} :
    ∀ (rows : List (List Int)) (i0 : Nat) (d : List ((String × String) × Int)),
      parse_rows num names i0 rows = some d →
      ∀ k row, rows[k]? = some row → ∀ j, j < row.length → i0 + k ≠ j →
        ∃ a b v, names[i0 + k]? = some a ∧ names[j]? = some b ∧
          ((a, b), v) ∈ d := by
  intro rows
  induction rows with
  | nil =>
    intro i0 d _ k row hrow
    simp at hrow
  | cons r rs ih =>
    intro i0 d h k row hrow j hj hne
    by_cases hl : r.length ≠ num
    · simp only [parse_rows, if_pos hl] at h
      cases h
    · simp only [parse_rows, if_neg hl] at h
      cases hpr : parse_row i0 names 0 r with
      | none => rw [hpr] at h; cases h
      | some entries =>
        rw [hpr] at h
        cases hps : parse_rows num names (i0 + 1) rs with
        | none => rw [hps] at h; cases h
        | some tail =>
          rw [hps] at h
          cases h
          cases k with
          | zero =>
            have hrr : row = r := by
              rw [List.getElem?_cons_zero] at hrow
              injection hrow with h'
              exact h'.symm
            obtain ⟨a, b, v, ha, hb, hmem⟩ := parse_row_mem r 0 entries hpr j
              (by rw [← hrr]; exact hj) (by omega)
            refine ⟨a, b, v, by rw [Nat.add_zero]; exact ha, ?_, ?_⟩
            · rw [Nat.zero_add] at hb
              exact hb
            · exact List.mem_append_left _ hmem
          | succ k' =>
            rw [List.getElem?_cons_succ] at hrow
            obtain ⟨a, b, v, ha, hb, hmem⟩ := ih (i0 + 1) tail hps k' row hrow
              j hj (by omega)
            refine ⟨a, b, v,
              by rw [show i0 + (k' + 1) = i0 + 1 + k' by omega]; exact ha,
              hb, List.mem_append_right _ hmem⟩

lemma distances_check_spec {d : List ((String × String) × Int)}
    (h : distances_check d = true) :
    ∀ e ∈ d, 0 ≤ e.2 ∧ dictGet d (e.1.2, e.1.1) = some e.2 := by
  intro e he
  have hall := List.all_eq_true.mp h e he
  simp only [Bool.and_eq_true, decide_eq_true_eq] at hall
  exact hall

lemma load_distances_inv {num : Nat} {rows : List (List Int)}
    {d : List ((String × String) × Int)} {names : List String}
    (h : load_distances num rows = some (d, names)) :
    names = city_names num ∧
      parse_matrix rows num (city_names num) = some d ∧
      distances_check d = true ∧ num ≤ rows.length := by
  rw [load_distances] at h
  by_cases hg : 1 + rows.length < num + 1
  · rw [if_pos hg] at h
    cases h
  · rw [if_neg hg] at h
    cases hp : parse_matrix rows num (city_names num) with
    | none => rw [hp] at h; cases h
    | some d0 =>
      rw [hp] at h
      have h' : (if distances_check d0 = true then
          some (d0, city_names num) else none) = some (d, names) := h
      cases hc : distances_check d0 with
      | false =>
        rw [hc] at h'
        simp at h'
      | true =>
        rw [hc] at h'
        simp only [if_true] at h'
        simp only [Option.some.injEq, Prod.mk.injEq] at h'
        obtain ⟨rfl, rfl⟩ := h'
        exact ⟨rfl, rfl, hc, by omega⟩

lemma load_distances_entry {num : Nat} {rows : List (List Int)}
    {d : List ((String × String) × Int)} {names : List String}
    (h : load_distances num rows = some (d, names)) {a b : String}
    (ha : a ∈ names) (hb : b ∈ names) (hab : a ≠ b) :
    ∃ v, dictGet d (a, b) = some v ∧ 0 ≤ v ∧ dictGet d (b, a) = some v := by
  obtain ⟨hnames, hp, hcheck, hrows⟩ := load_distances_inv h
  subst hnames
  obtain ⟨i, hi, hia⟩ := mem_city_names ha
  obtain ⟨j, hj, hjb⟩ := mem_city_names hb
  have hij : i ≠ j := by
    intro he
    rw [he] at hia
    rw [hia] at hjb
    injection hjb with h'
    exact hab h'
  have htlen : (rows.take num).length = num := by
    rw [List.length_take]
    omega
  have hrow : ∃ row, (rows.take num)[i]? = some row := by
    have : i < (rows.take num).length := by omega
    exact ⟨(rows.take num)[i], List.getElem?_eq_getElem this⟩
  obtain ⟨row, hrowi⟩ := hrow
  have hrlen : row.length = num := by
    apply parse_rows_rowlen (rows.take num) 0 d hp
    obtain ⟨hlt, he⟩ := List.getElem?_eq_some.mp hrowi
    rw [← he]
    exact List.getElem_mem hlt
  obtain ⟨a', b', v, ha', hb', hmem⟩ := parse_rows_mem (rows.take num) 0 d hp
    i row hrowi j (by omega) (by omega)
  rw [Nat.zero_add] at ha'
  rw [hia] at ha'
  rw [hjb] at hb'
  injection ha' with haa
  injection hb' with hbb
  subst haa
  subst hbb
  have hsome := dictGet_isSome_of_mem hmem
  cases hget : dictGet d (a, b) with
  | none => rw [hget] at hsome; cases hsome
  | some v0 =>
    have hm0 := mem_of_dictGet_eq_some hget
    have := distances_check_spec hcheck _ hm0
    exact ⟨v0, rfl, this.1, this.2⟩

lemma load_distances_none_of_bad {num : Nat} {rows : List (List Int)}
    {d : List ((String × String) × Int)}
    (hp : parse_matrix rows num (city_names num) = some d)
    (hbad : ∃ e ∈ d, e.2 < 0 ∨ dictGet d (e.1.2, e.1.1) ≠ some e.2) :
    load_distances num rows = none := by
  rw [load_distances]
  by_cases hg : 1 + rows.length < num + 1
  · rw [if_pos hg]
  · rw [if_neg hg]
    rw [hp]
    show (if distances_check d = true then
      some (d, city_names num) else none) = none
    have hc : distances_check d = false := by
      obtain ⟨e, he, hor⟩ := hbad
      rw [distances_check, List.all_eq_false]
      refine ⟨e, he, ?_⟩
      rcases hor with h1 | h2
      · simp only [Bool.and_eq_true, decide_eq_true_eq]
        intro hcon
        omega
      · simp only [Bool.and_eq_true, decide_eq_true_eq]
        intro hcon
        exact h2 hcon.2
    rw [hc]
    simp

/-! ### Claim theorems -/

/-- Claim C1: the claim states that all three crossover operators return
children that are permutations of the parents' element set.  It fails on the
code: at the spec's own PMX scenario (parents `(1,…,9)` and
`(9,3,7,8,2,6,5,1,4)` with slice `[3,7)`), `partially_mapped_crossover`
resolves each child against the wrong mapping (child1 against
`mapping1 = {parent1[i]: parent2[i]}`, whose keys can never collide with
child1's outside-slice values), so both children keep their duplicates:
neither child is duplicate-free. -/
theorem claim_C1_pmx_children_not_permutations :
    partially_mapped_crossover [1, 2, 3, 4, 5, 6, 7, 8, 9]
        [9, 3, 7, 8, 2, 6, 5, 1, 4] 3 7 =
      some ([1, 2, 3, 8, 2, 6, 5, 8, 9], [9, 3, 7, 4, 5, 6, 7, 1, 4]) ∧
    ¬ ([1, 2, 3, 8, 2, 6, 5, 8, 9] : List Nat).Nodup ∧
    ¬ ([9, 3, 7, 4, 5, 6, 7, 1, 4] : List Nat).Nodup :=
  ⟨by decide, by decide, by decide⟩

/-- Claim C2: the claim states that `cycle_crossover` assigns position
cycles to the children alternately by discovery order.  It fails on the
code: `child1` starts as a copy of `parent1` and is only ever written with
`parent1`'s own values, so the guard `child1[i] == parent1[i]` is always
true, no inversion ever happens, and the children are the parents
unchanged.  On parents `(1,2,3,4)` and `(2,1,4,3)` the cycles are
`{0,1}` and `{2,3}`; alternation would give `(1,2,4,3)` and `(2,1,3,4)`,
but the code returns the parents. -/
theorem claim_C2_cycle_crossover_no_alternation :
    cycle_crossover [1, 2, 3, 4] [2, 1, 4, 3] =
        some ([1, 2, 3, 4], [2, 1, 4, 3]) ∧
    cycle_crossover [1, 2, 3, 4] [2, 1, 4, 3] ≠
        some ([1, 2, 4, 3], [2, 1, 3, 4]) :=
  ⟨by decide, by decide⟩

/-- Claim C3: for every pair of equal-length parent tuples in which every
element of `parent1` occurs in `parent2`, `cycle_crossover` returns exactly
`(parent1, parent2)`: both children equal the corresponding parent
unchanged. -/
theorem claim_C3_cycle_crossover_returns_parents {α : Type} [DecidableEq α]
    (p1 p2 : List α) (hlen : p2.length = p1.length)
    (hsub : ∀ x ∈ p1, x ∈ p2) :
    cycle_crossover p1 p2 = some (p1, p2) :=
  cycle_crossover_eq_parents p1 p2 hlen hsub

/-- Witness for C3 at parents `(10,20,30)` and `(30,10,20)`. -/
theorem claim_C3_witness :
    (([30, 10, 20] : List Nat).length = ([10, 20, 30] : List Nat).length ∧
      ∀ x ∈ ([10, 20, 30] : List Nat), x ∈ ([30, 10, 20] : List Nat)) ∧
    cycle_crossover [10, 20, 30] [30, 10, 20] =
      some ([10, 20, 30], [30, 10, 20]) :=
  ⟨⟨by decide, by decide⟩,
    claim_C3_cycle_crossover_returns_parents [10, 20, 30] [30, 10, 20]
      (by decide) (by decide)⟩

/-- Claim C4: for duplicate-free parents of equal length and any chosen cut
pair `point1 < point2`, the chain-resolution step of
`partially_mapped_crossover` performs zero substitutions: child1 equals
`parent2` on `[point1, point2)` and `parent1` outside it, and child2 is the
symmetric splice. -/
theorem claim_C4_pmx_is_plain_splice {α : Type} [DecidableEq α]
    (p1 p2 : List α) (pt1 pt2 : Nat) (h1 : p1.Nodup) (h2 : p2.Nodup)
    (hlen : p2.length = p1.length) (hpt : pt1 < pt2) (hlt : pt2 < p1.length) :
    ∃ c1 c2, partially_mapped_crossover p1 p2 pt1 pt2 = some (c1, c2) ∧
      c1.length = p1.length ∧ c2.length = p2.length ∧
      (∀ j, c1[j]? = if pt1 ≤ j ∧ j < pt2 then p2[j]? else p1[j]?) ∧
      (∀ j, c2[j]? = if pt1 ≤ j ∧ j < pt2 then p1[j]? else p2[j]?) :=
  pmx_core p1 p2 pt1 pt2 h1 h2 hlen hpt hlt

/-- Witness for C4 at parents `(1,2,3,4)` and `(4,3,2,1)`, cut pair
`(1, 3)`. -/
theorem claim_C4_witness :
    (([1, 2, 3, 4] : List Nat).Nodup ∧ ([4, 3, 2, 1] : List Nat).Nodup) ∧
    ∃ c1 c2,
      partially_mapped_crossover ([1, 2, 3, 4] : List Nat) [4, 3, 2, 1] 1 3 =
        some (c1, c2) ∧
      c1.length = ([1, 2, 3, 4] : List Nat).length ∧
      c2.length = ([4, 3, 2, 1] : List Nat).length ∧
      (∀ j, c1[j]? = if 1 ≤ j ∧ j < 3 then ([4, 3, 2, 1] : List Nat)[j]?
        else ([1, 2, 3, 4] : List Nat)[j]?) ∧
      (∀ j, c2[j]? = if 1 ≤ j ∧ j < 3 then ([1, 2, 3, 4] : List Nat)[j]?
        else ([4, 3, 2, 1] : List Nat)[j]?) :=
  ⟨⟨by decide, by decide⟩,
    claim_C4_pmx_is_plain_splice [1, 2, 3, 4] [4, 3, 2, 1] 1 3 (by decide)
      (by decide) (by decide) (by decide) (by decide)⟩

/-- Claim C5: for parents of length `n ≥ 2` and a cut point `p ∈ [1, n)`,
`single_point_crossover` returns child1 = parent1's elements at positions
`[0, p)` followed by parent2's elements in their original relative order
excluding any element already present in that front part, and child2 is the
symmetric construction (`spec_fill_child` renders the spec's wording). -/
theorem claim_C5_single_point_structure {α : Type} [DecidableEq α]
    (p1 p2 : List α) (pt : Nat) (hn : 2 ≤ p1.length) (hpt1 : 1 ≤ pt)
    (hpt2 : pt < p1.length) :
    single_point_crossover p1 p2 pt =
      (spec_fill_child p1 p2 pt, spec_fill_child p2 p1 pt) :=
  single_point_eq_spec p1 p2 pt hn

/-- Witness for C5 at parents `(1,2,3,4)` and `(4,3,2,1)`, cut point 2. -/
theorem claim_C5_witness :
    (2 ≤ ([1, 2, 3, 4] : List Nat).length ∧ 1 ≤ 2 ∧
      2 < ([1, 2, 3, 4] : List Nat).length) ∧
    single_point_crossover ([1, 2, 3, 4] : List Nat) [4, 3, 2, 1] 2 =
      (spec_fill_child [1, 2, 3, 4] [4, 3, 2, 1] 2,
        spec_fill_child [4, 3, 2, 1] [1, 2, 3, 4] 2) :=
  ⟨⟨by decide, by decide, by decide⟩,
    claim_C5_single_point_structure [1, 2, 3, 4] [4, 3, 2, 1] 2 (by decide)
      (by decide) (by decide)⟩

/-- Claim C6: calling any operator with `parent1 = parent2 = p` for a
duplicate-free `p` returns two children equal to `p`, for every cut choice
the point selectors can produce (`pt` arbitrary for the single-point
operator, `pt1 < pt2 < p.length` for the two-point PMX draw). -/
theorem claim_C6_self_crossover_identity {α : Type} [DecidableEq α]
    (p : List α) (pt pt1 pt2 : Nat) (hnd : p.Nodup) (hpt : pt1 < pt2)
    (hlt : pt2 < p.length) :
    single_point_crossover p p pt = (p, p) ∧
    cycle_crossover p p = some (p, p) ∧
    partially_mapped_crossover p p pt1 pt2 = some (p, p) :=
  ⟨single_point_self p hnd pt,
    cycle_crossover_eq_parents p p rfl (fun _ hx => hx),
    pmx_self p hnd pt1 pt2 hpt hlt⟩

/-- Witness for C6 at `p = (1,2,3)`, single-point cut 1, PMX cut pair
`(0, 2)`. -/
theorem claim_C6_witness :
    ([1, 2, 3] : List Nat).Nodup ∧
    single_point_crossover ([1, 2, 3] : List Nat) [1, 2, 3] 1 =
      ([1, 2, 3], [1, 2, 3]) ∧
    cycle_crossover ([1, 2, 3] : List Nat) [1, 2, 3] =
      some ([1, 2, 3], [1, 2, 3]) ∧
    partially_mapped_crossover ([1, 2, 3] : List Nat) [1, 2, 3] 0 2 =
      some ([1, 2, 3], [1, 2, 3]) :=
  ⟨by decide,
    claim_C6_self_crossover_identity [1, 2, 3] 1 0 2 (by decide) (by decide)
      (by decide)⟩

/-- Claim C7, counterexample: the claim states that every operator returns
normally on parents of length 0 or 1, but `partially_mapped_crossover` on
the length-1 parents `(0)` and `(0)` never returns: drawing two distinct
cut indices from `range(1)` is impossible, so the call raises for every
draw (embedded: no cut pair makes the result `some`). -/
theorem claim_C7_counterexample :
    ¬ ∃ pt1 pt2 : Nat,
      (partially_mapped_crossover ([0] : List Nat) [0] pt1 pt2).isSome =
        true := by
  rintro ⟨pt1, pt2, h⟩
  rw [partially_mapped_crossover,
    if_neg (by rintro ⟨h1, h2⟩; simp at h2; omega)] at h
  simp at h

/-- Claim C7, amended: for parents of length 0 or 1 (equal length, same
element set), `single_point_crossover` and `cycle_crossover` return
normally with the parents unchanged (single-point acting as the identity),
while `partially_mapped_crossover` raises for every cut-point draw because
two distinct cut points cannot be sampled from fewer than two indices. -/
theorem claim_C7_amended {α : Type} [DecidableEq α] (p1 p2 : List α)
    (pt pt1 pt2 : Nat) (hn : p1.length ≤ 1) (hlen : p2.length = p1.length)
    (hsub : ∀ x ∈ p1, x ∈ p2) :
    single_point_crossover p1 p2 pt = (p1, p2) ∧
    cycle_crossover p1 p2 = some (p1, p2) ∧
    partially_mapped_crossover p1 p2 pt1 pt2 = none := by
  refine ⟨?_, cycle_crossover_eq_parents p1 p2 hlen hsub, ?_⟩
  · rw [single_point_crossover, if_pos (by omega)]
  · rw [partially_mapped_crossover, if_neg (by rintro ⟨h1, h2⟩; omega)]

/-- Witness for the amended C7 at the length-1 parents `(7)` and `(7)`. -/
theorem claim_C7_amended_witness :
    (([7] : List Nat).length ≤ 1 ∧
      ([7] : List Nat).length = ([7] : List Nat).length ∧
      ∀ x ∈ ([7] : List Nat), x ∈ ([7] : List Nat)) ∧
    single_point_crossover ([7] : List Nat) [7] 0 = ([7], [7]) ∧
    cycle_crossover ([7] : List Nat) [7] = some ([7], [7]) ∧
    partially_mapped_crossover ([7] : List Nat) [7] 0 1 = none :=
  ⟨⟨by decide, by decide, by decide⟩,
    claim_C7_amended [7] [7] 0 0 1 (by decide) (by decide) (by decide)⟩

/-- Claim C8: for parents of equal length `n < 2`,
`single_point_crossover` returns the parents themselves unchanged as the
two children (for every value of the never-drawn cut point), without
raising. -/
theorem claim_C8_single_point_short_identity {α : Type} [DecidableEq α]
    (p1 p2 : List α) (hn : p1.length < 2) (hlen : p2.length = p1.length)
    (pt : Nat) :
    single_point_crossover p1 p2 pt = (p1, p2) := by
  rw [single_point_crossover, if_pos hn]

/-- Witness for C8 at the length-1 parents `(5)` and `(9)`. -/
theorem claim_C8_witness :
    (([5] : List Nat).length < 2 ∧
      ([9] : List Nat).length = ([5] : List Nat).length) ∧
    single_point_crossover ([5] : List Nat) [9] 3 = ([5], [9]) :=
  ⟨⟨by decide, by decide⟩,
    claim_C8_single_point_short_identity [5] [9] (by decide) (by decide) 3⟩

/-- Claim C9: for parent permutations of equal length over the same element
set (`p2` a permutation of `p1`, both duplicate-free) and any cut pair
`point1 < point2` the selector can produce, every chain-following loop in
`resolve_gene_mapping` terminates, so `partially_mapped_crossover` returns
normally (the embedding's fuel, which is exhausted exactly when the Python
`while` loop runs forever, is never exhausted). -/
theorem claim_C9_pmx_chains_terminate {α : Type} [DecidableEq α]
    (p1 p2 : List α) (pt1 pt2 : Nat) (hnd : p1.Nodup) (hperm : p2.Perm p1)
    (hpt : pt1 < pt2) (hlt : pt2 < p1.length) :
    (partially_mapped_crossover p1 p2 pt1 pt2).isSome = true := by
  obtain ⟨c1, c2, heq, _⟩ := pmx_core p1 p2 pt1 pt2 hnd
    (hperm.nodup_iff.mpr hnd) hperm.length_eq hpt hlt
  rw [heq]
  rfl

/-- Witness for C9 at parents `(1,2,3,4)` and `(2,4,1,3)`, cut pair
`(1, 3)`. -/
theorem claim_C9_witness :
    (([1, 2, 3, 4] : List Nat).Nodup ∧
      ([2, 4, 1, 3] : List Nat).Perm [1, 2, 3, 4]) ∧
    (partially_mapped_crossover ([1, 2, 3, 4] : List Nat) [2, 4, 1, 3]
      1 3).isSome = true :=
  ⟨⟨by decide, by decide⟩,
    claim_C9_pmx_chains_terminate [1, 2, 3, 4] [2, 4, 1, 3] 1 3 (by decide)
      (by decide) (by decide) (by decide)⟩

/-- Claim C10: whenever `load_distances` returns normally, the returned
dictionary has an entry for every off-diagonal pair of the returned city
names, each entry is non-negative and equals the entry for the swapped
pair; and if the parsed matrix has a negative or asymmetric entry,
`load_distances` raises (returns `none`) instead of returning. -/
theorem claim_C10_load_distances_symmetric_nonneg (num : Nat)
    (rows : List (List Int)) (d : List ((String × String) × Int))
    (names : List String) :
    (load_distances num rows = some (d, names) →
      ∀ a b : String, a ∈ names → b ∈ names → a ≠ b →
        ∃ v, dictGet d (a, b) = some v ∧ 0 ≤ v ∧
          dictGet d (b, a) = some v) ∧
    (parse_matrix rows num (city_names num) = some d →
      (∃ e ∈ d, e.2 < 0 ∨ dictGet d (e.1.2, e.1.1) ≠ some e.2) →
      load_distances num rows = none) :=
  ⟨fun h _ _ ha hb hab => load_distances_entry h ha hb hab,
    fun hp hbad => load_distances_none_of_bad hp hbad⟩

/-- Witness for C10 on the 2-city matrix with distance 3. -/
theorem claim_C10_witness :
    load_distances 2 [[0, 3], [3, 0]] =
      some ([(("city_1", "city_2"), 3), (("city_2", "city_1"), 3)],
        ["city_1", "city_2"]) ∧
    ∃ v : Int,
      dictGet [(("city_1", "city_2"), 3), (("city_2", "city_1"), 3)]
        ("city_1", "city_2") = some v ∧ 0 ≤ v ∧
      dictGet [(("city_1", "city_2"), 3), (("city_2", "city_1"), 3)]
        ("city_2", "city_1") = some v :=
  ⟨by decide,
    (claim_C10_load_distances_symmetric_nonneg 2 [[0, 3], [3, 0]]
      [(("city_1", "city_2"), 3), (("city_2", "city_1"), 3)]
      ["city_1", "city_2"]).1 (by decide) "city_1" "city_2" (by decide)
      (by decide) (by decide)⟩

end TSP
